import Mathlib

/-!
Shallow embedding of the keras-idiomatic-programmer autoencoder sources
(`zoo/autoencoder/models_c.py` and `zoo/autoencoder/autoencoder_c.py`).

The embedding models the layer-graph construction performed by the Python
code.  A constructed graph is a list of `Layer` nodes in construction order
(the keras `Input` placeholder carries no weights and is not represented as
a node).  Keyword-argument dictionaries (`**metaparameters` /
`**hyperparameters`) are association lists from keyword names to values.

Framework (keras) facilities that the repository merely calls — the weight
list of a model, `set_weights`, `compile`, and the numeric behaviour of the
`ReLU` layer — are modelled from the specification, each marked as such in
its doc comment.  Everything else is translated from the Python source.
-/

/-- A kernel-initializer value: `none` is Python `None`, `some s` a named
initializer such as `"he_normal"`. -/
abbrev Initializer := Option String

/-- A regularizer object, as produced by `l2(0.001)` in `models_c.py`. -/
inductive Reg where
  | l2 (amount : ℚ)
  deriving DecidableEq, Repr

/-- A kernel-regularizer value: `none` is Python `None`. -/
abbrev Regularizer := Option Reg

/-- One entry of the `layers` metaparameter: the dict `{'n_filters': k}`. -/
structure LayerSpec where
  n_filters : Int
  deriving DecidableEq, Repr

/-- One node of the constructed layer graph, with the arguments that the
source passes to the corresponding keras layer constructor. -/
inductive Layer where
  | dense (units : Int) (activation : Option String) (use_bias : Bool)
      (kernel_initializer : Initializer) (kernel_regularizer : Regularizer)
  | conv2d (n_filters : Int) (kernel_size : Nat × Nat) (strides : Nat)
      (padding : String) (activation : Option String) (use_bias : Bool)
      (kernel_initializer : Initializer) (kernel_regularizer : Regularizer)
  | conv2dTranspose (n_filters : Int) (kernel_size : Nat × Nat) (strides : Nat)
      (padding : String) (activation : Option String) (use_bias : Bool)
      (kernel_initializer : Initializer) (kernel_regularizer : Regularizer)
  | batchNormalization
  | reluLayer (max_value : Option ℚ)
  deriving DecidableEq, Repr

/-- A value stored in a Python keyword-argument dictionary by the calls this
repository makes (an initializer, a regularizer, or the layer-spec list). -/
inductive PyVal where
  | vInit (i : Initializer)
  | vReg (r : Regularizer)
  | vLayers (l : List LayerSpec)
  deriving DecidableEq, Repr

/-- A Python keyword-argument dictionary, in call order. -/
abbrev Kwargs := List (String × PyVal)

/-- Class attribute `Composable.init_weights = 'he_normal'` (`models_c.py`). -/
def Composable.init_weights : Initializer := some "he_normal"

/-- Class attribute `Composable.reg = l2(0.001)` (`models_c.py`). -/
def Composable.reg : Regularizer := some (Reg.l2 (1 / 1000))

/-- Class attribute `Composable.relu = None` (`models_c.py`). -/
def Composable.relu : Option ℚ := none

/-- The part of a `Composable` instance the claims touch.  A field equal to
`none` means the instance attribute was never assigned, so Python attribute
lookup on the instance would fall through to the class attribute. -/
structure ComposableState where
  init_weights : Option String
  reg : Option Reg
  relu : Option ℚ
  deriving DecidableEq, Repr

/-- `Composable.__init__`: each instance attribute is assigned only when the
corresponding argument is not `None`; otherwise it stays unset.  The
bookkeeping fields (`_encoding`, `_embedding`, `_probabilities`, `_softmax`,
`_model`) are initialized to `None` and touched by no claim, so they are not
carried here. -/
def Composable.constr (init_weights : Initializer) (reg : Regularizer)
    (relu : Option ℚ) : ComposableState :=
  { init_weights := init_weights, reg := reg, relu := relu }

/-- Python attribute read `self.init_weights`: the instance attribute when
assigned, else the class attribute `Composable.init_weights`. -/
def ComposableState.init_weights_attr (s : ComposableState) : Initializer :=
  match s.init_weights with
  | some v => some v
  | none => Composable.init_weights

/-- Python attribute read `self.reg`: the instance attribute when assigned,
else the class attribute `Composable.reg`. -/
def ComposableState.reg_attr (s : ComposableState) : Regularizer :=
  match s.reg with
  | some v => some v
  | none => Composable.reg

/-- The `init_weights` resolution block that appears verbatim in
`Composable.Dense`, `Composable.Conv2D` and `Composable.Conv2DTranspose`:
the `hyperparameters` entry when the key is present, else the class
attribute `Composable.init_weights`.  The argument is `some v` when the
caller supplied `init_weights=v` in the keyword dict, `none` when absent. -/
def Composable.hyperResolvedInit (hyper_init_weights : Option Initializer) :
    Initializer :=
  match hyper_init_weights with
  | some v => v
  | none => Composable.init_weights

/-- The `reg` resolution block that appears verbatim in `Composable.Dense`,
`Composable.Conv2D` and `Composable.Conv2DTranspose`: the `hyperparameters`
entry when the key is present, else the class attribute `Composable.reg`. -/
def Composable.hyperResolvedReg (hyper_reg : Option Regularizer) :
    Regularizer :=
  match hyper_reg with
  | some v => v
  | none => Composable.reg

/-- `Composable.ReLU`: appends a keras `ReLU(Composable.relu)` node to the
graph (the class attribute is the `max_value` argument). -/
def Composable.ReLU (x : List Layer) : List Layer :=
  x ++ [Layer.reluLayer Composable.relu]

/-- Modelled from the spec: the numeric behaviour of the framework `ReLU`
layer at its default `negative_slope`/`threshold`.  With no `max_value` it
is the standard rectifier; with `max_value = m` the rectified output is
additionally capped at `m`. -/
def reluEval (max_value : Option ℚ) (x : ℚ) : ℚ :=
  match max_value with
  | none => max x 0
  | some m => min (max x 0) m

/-- `Composable.Dense`: appends a fully-connected node whose initializer and
regularizer come from the shared resolution blocks. -/
def Composable.Dense (x : List Layer) (units : Int) (activation : Option String)
    (use_bias : Bool) (hyper_init_weights : Option Initializer)
    (hyper_reg : Option Regularizer) : List Layer :=
  x ++ [Layer.dense units activation use_bias
          (Composable.hyperResolvedInit hyper_init_weights)
          (Composable.hyperResolvedReg hyper_reg)]

/-- `Composable.Conv2D`: appends a convolution node whose initializer and
regularizer come from the shared resolution blocks. -/
def Composable.Conv2D (x : List Layer) (n_filters : Int) (kernel_size : Nat × Nat)
    (strides : Nat) (padding : String) (activation : Option String)
    (use_bias : Bool) (hyper_init_weights : Option Initializer)
    (hyper_reg : Option Regularizer) : List Layer :=
  x ++ [Layer.conv2d n_filters kernel_size strides padding activation use_bias
          (Composable.hyperResolvedInit hyper_init_weights)
          (Composable.hyperResolvedReg hyper_reg)]

/-- `Composable.Conv2DTranspose`: appends a transposed-convolution node whose
initializer and regularizer come from the shared resolution blocks. -/
def Composable.Conv2DTranspose (x : List Layer) (n_filters : Int)
    (kernel_size : Nat × Nat) (strides : Nat) (padding : String)
    (activation : Option String) (use_bias : Bool)
    (hyper_init_weights : Option Initializer)
    (hyper_reg : Option Regularizer) : List Layer :=
  x ++ [Layer.conv2dTranspose n_filters kernel_size strides padding activation
          use_bias (Composable.hyperResolvedInit hyper_init_weights)
          (Composable.hyperResolvedReg hyper_reg)]

/-- An opaque identifier standing for one weight array of a model. -/
abbrev WeightArray := Nat

/-- How many weight arrays a layer contributes to `get_weights`: a
convolution or dense layer has a kernel plus (with bias) a bias vector, a
batch-normalization layer has gamma, beta, moving mean and moving variance,
an activation has none. -/
def layerWeightCount : Layer → Nat
  | Layer.dense _ _ ub _ _ => if ub then 2 else 1
  | Layer.conv2d _ _ _ _ _ ub _ _ => if ub then 2 else 1
  | Layer.conv2dTranspose _ _ _ _ _ ub _ _ => if ub then 2 else 1
  | Layer.batchNormalization => 4
  | Layer.reluLayer _ => 0

/-- Total number of weight arrays of a graph, in construction order. -/
def totalWeightCount (g : List Layer) : Nat :=
  g.foldr (fun l acc => layerWeightCount l + acc) 0

/-- The training configuration attached by `compile`. -/
structure TrainConfig where
  loss : String
  optimizer : String
  metrics : List String
  deriving DecidableEq, Repr

/-- A framework model object: its layer graph, its current weight arrays (in
construction order), and its training configuration when compiled. -/
structure Model where
  graph : List Layer
  weights : List WeightArray
  trainingConfig : Option TrainConfig
  deriving DecidableEq, Repr

/-- Modelled from the spec: `Model(inputs, outputs)` wraps the constructed
graph into a fresh model holding one freshly initialized weight array per
expected parameter and no training configuration. -/
def Model.mkNew (graph : List Layer) : Model :=
  { graph := graph, weights := List.range (totalWeightCount graph),
    trainingConfig := none }

/-- `model.get_weights()`: the model's weight arrays in construction order. -/
def Model.get_weights (m : Model) : List WeightArray := m.weights

/-- The error taxonomy of the specification. -/
inductive AEError where
  | invalidConfiguration
  | shapeMismatch
  deriving DecidableEq, Repr

/-- Modelled from the spec: `model.set_weights(w)` loads the given arrays
into the model and fails when their number does not match the parameter
count the graph expects. -/
def Model.set_weights (m : Model) (w : List WeightArray) : Except AEError Model :=
  if w.length = totalWeightCount m.graph then
    Except.ok { m with weights := w }
  else
    Except.error AEError.shapeMismatch

/-- Modelled from the spec: the framework `compile` call attaches the given
training configuration, replacing any previous one. -/
def Model.compileWith (m : Model) (cfg : TrainConfig) : Model :=
  { m with trainingConfig := some cfg }

/-- Class attribute `AutoEncoder.layers` (`autoencoder_c.py` line 28). -/
def AutoEncoder.layers : List LayerSpec := [⟨64⟩, ⟨32⟩, ⟨16⟩]

/-- Python attribute lookup `AutoEncoder.init_weights`: `AutoEncoder` defines
no such class attribute, so inheritance yields `Composable.init_weights`. -/
def AutoEncoder.init_weights : Initializer := Composable.init_weights

/-- Python attribute lookup `AutoEncoder.reg`: `AutoEncoder` defines no such
class attribute, so inheritance yields `Composable.reg`. -/
def AutoEncoder.reg : Regularizer := Composable.reg

/-- Python call binding for the static methods `AutoEncoder.encoder` and
`AutoEncoder.decoder` (`x` is passed positionally): a keyword named
`init_weights` binds the declared parameter `init_weights` and is removed
from the keyword dict; every remaining keyword lands in `metaparameters`. -/
def staticCallMeta (kwargs : Kwargs) : Kwargs :=
  kwargs.filter (fun p => p.1 != "init_weights")

/-- The value Python binds to the declared parameter `init_weights` of
`encoder`/`decoder`: the caller's keyword when given, else the declared
default `None`.  The bodies overwrite this value before using it. -/
def boundInitParam (kwargs : Kwargs) : Initializer :=
  match List.lookup "init_weights" kwargs with
  | some (PyVal.vInit i) => i
  | _ => none

/-- The `reg` resolution block of `AutoEncoder.encoder`/`decoder`:
`metaparameters['reg']` when the key is present, else the class attribute
`AutoEncoder.reg`. -/
def AutoEncoder.metaResolvedReg (metaparameters : Kwargs) : Regularizer :=
  match List.lookup "reg" metaparameters with
  | some (PyVal.vReg r) => r
  | _ => AutoEncoder.reg

/-- The `init_weights` resolution block of `AutoEncoder.encoder`/`decoder`:
`metaparameters['init_weights']` when the key is present, else the class
attribute `AutoEncoder.init_weights`. -/
def AutoEncoder.metaResolvedInit (metaparameters : Kwargs) : Initializer :=
  match List.lookup "init_weights" metaparameters with
  | some (PyVal.vInit i) => i
  | _ => AutoEncoder.init_weights

/-- `metaparameters['layers']`.  A call without the `layers` keyword raises
`KeyError` in Python; no claim concerns such a call and every call in the
source supplies it, so the embedding returns the empty list there. -/
def AutoEncoder.layersArg (metaparameters : Kwargs) : List LayerSpec :=
  match List.lookup "layers" metaparameters with
  | some (PyVal.vLayers l) => l
  | _ => []

/-- The nodes appended by the loop body of `AutoEncoder.encoder`: for each
spec in order, `Conv2D(n_filters, (3,3), strides=2, padding='same')`, then
`BatchNormalization()`, then `Composable.ReLU` (which appends
`Layer.reluLayer Composable.relu`). -/
def AutoEncoder.encoderStages (init_weights : Initializer) (reg : Regularizer) :
    List LayerSpec → List Layer
  | [] => []
  | layer :: rest =>
      Layer.conv2d layer.n_filters (3, 3) 2 "same" none true init_weights reg ::
      Layer.batchNormalization ::
      Layer.reluLayer Composable.relu ::
      AutoEncoder.encoderStages init_weights reg rest

/-- `AutoEncoder.encoder`: resolves `reg` and `init_weights` from
`metaparameters` (the declared parameter `init_weights`, holding
`boundInitParam kwargs`, is overwritten by the body before use and so does
not appear here), then appends one stage per entry of `layers`. -/
def AutoEncoder.encoder (x : List Layer) (kwargs : Kwargs) : List Layer :=
  let metaparameters := staticCallMeta kwargs
  let reg := AutoEncoder.metaResolvedReg metaparameters
  let init_weights := AutoEncoder.metaResolvedInit metaparameters
  x ++ AutoEncoder.encoderStages init_weights reg
         (AutoEncoder.layersArg metaparameters)

/-- Python `range(k, 0, -1)`: the indices `k, k-1, ..., 1`. -/
def rangeDownTo1 : Nat → List Nat
  | 0 => []
  | k + 1 => (k + 1) :: rangeDownTo1 k

/-- The loop of `AutoEncoder.decoder`: for each index in the given list,
`Conv2DTranspose(layers[i]['n_filters'], (3,3), strides=2, padding='same')`,
then `BatchNormalization()`, then `Composable.ReLU`.  The indices produced
by `range(len(layers)-1, 0, -1)` are all in bounds, so the `getD` default
is never consulted. -/
def AutoEncoder.decoderLoop (init_weights : Initializer) (reg : Regularizer)
    (layers : List LayerSpec) : List Nat → List Layer
  | [] => []
  | i :: rest =>
      Layer.conv2dTranspose (layers.getD i ⟨0⟩).n_filters (3, 3) 2 "same" none
        true init_weights reg ::
      Layer.batchNormalization ::
      Layer.reluLayer Composable.relu ::
      AutoEncoder.decoderLoop init_weights reg layers rest

/-- The nodes appended by the body of `AutoEncoder.decoder` after resolution:
the loop over `range(len(layers)-1, 0, -1)`, then the fixed finishing stage
`Conv2DTranspose(3, (3,3), strides=2, padding='same')`, `BatchNormalization`,
`Composable.ReLU`. -/
def AutoEncoder.decoderStages (init_weights : Initializer) (reg : Regularizer)
    (layers : List LayerSpec) : List Layer :=
  AutoEncoder.decoderLoop init_weights reg layers
      (rangeDownTo1 (layers.length - 1)) ++
  [Layer.conv2dTranspose 3 (3, 3) 2 "same" none true init_weights reg,
   Layer.batchNormalization,
   Layer.reluLayer Composable.relu]

/-- `AutoEncoder.decoder`: same resolution blocks as `encoder` (the declared
parameter `init_weights` is likewise overwritten before use), then the
mirrored stages and the fixed finishing stage. -/
def AutoEncoder.decoder (x : List Layer) (kwargs : Kwargs) : List Layer :=
  let metaparameters := staticCallMeta kwargs
  let reg := AutoEncoder.metaResolvedReg metaparameters
  let init_weights := AutoEncoder.metaResolvedInit metaparameters
  x ++ AutoEncoder.decoderStages init_weights reg
         (AutoEncoder.layersArg metaparameters)

/-- The state of a constructed `AutoEncoder` instance: the remembered
`self.layers` and `self.input_shape`, the base-class attributes, and
`self._model`. -/
structure AEState where
  layers : List LayerSpec
  input_shape : Nat × Nat × Nat
  base : ComposableState
  model : Model
  deriving DecidableEq, Repr

/-- The body of `AutoEncoder.__init__`: configure the base class, default
`layers` to the class attribute when `None`, remember `layers` and
`input_shape`, build the encoder then the decoder (each called with the
single keyword `layers=layers`), and wrap the result in a model. -/
def AutoEncoder.constructState (layersArg0 : Option (List LayerSpec))
    (input_shape : Nat × Nat × Nat) (init_weights : Initializer)
    (reg : Regularizer) : AEState :=
  let base := Composable.constr init_weights reg none
  let layers := layersArg0.getD AutoEncoder.layers
  let encoderOut := AutoEncoder.encoder [] [("layers", PyVal.vLayers layers)]
  let outputs := AutoEncoder.decoder encoderOut [("layers", PyVal.vLayers layers)]
  { layers := layers, input_shape := input_shape, base := base,
    model := Model.mkNew outputs }

/-- `AutoEncoder.__init__` as a fallible construction.  The codomain carries
the specification's error taxonomy so that failure claims are statable; the
source body contains no validation and no raise, so every path returns
`Except.ok`. -/
def AutoEncoder.construct (layersArg0 : Option (List LayerSpec))
    (input_shape : Nat × Nat × Nat) (init_weights : Initializer)
    (reg : Regularizer) : Except AEError AEState :=
  Except.ok (AutoEncoder.constructState layersArg0 input_shape init_weights reg)

/-- `AutoEncoder.compile`: `self._model.compile(loss='mse',
optimizer=optimizer, metrics=['accuracy'])`. -/
def AutoEncoder.compile (ae : AEState) (optimizer : String) : AEState :=
  let cfg : TrainConfig := { loss := "mse", optimizer := optimizer, metrics := ["accuracy"] }
  { ae with model := Model.compileWith ae.model cfg }

/-- The encoder graph freshly built inside `AutoEncoder.extract`:
`self.encoder(inputs, layers=self.layers)` starting from the input
placeholder. -/
def AutoEncoder.extractEncoderGraph (ae : AEState) : List Layer :=
  AutoEncoder.encoder [] [("layers", PyVal.vLayers ae.layers)]

/-- `AutoEncoder.extract`: read the full model's weights, slice off the
first `6 * len(self.layers)` arrays, build a fresh encoder-only model over
`self.layers`, and load the slice into it. -/
def AutoEncoder.extract (ae : AEState) : Except AEError Model :=
  let weights := Model.get_weights ae.model
  let encoder_weights := weights.take (6 * ae.layers.length)
  let encoder := Model.mkNew (AutoEncoder.extractEncoderGraph ae)
  Model.set_weights encoder encoder_weights

/-- `AutoEncoder.extract` with the instance state threaded explicitly: the
source contains no assignment to `self` or to `self._model`, so the state
passes through every statement unchanged. -/
def AutoEncoder.extractM (ae : AEState) : AEState × Except AEError Model :=
  match AutoEncoder.extract ae with
  | Except.ok e => (ae, Except.ok e)
  | Except.error err => (ae, Except.error err)

/-- Modelled from the spec: the decoder stage list as the spec describes it —
one mirrored stage per entry of the reversed tail of `layerSpecs`. Used to
compare the source's index loop against the spec's wording. -/
def specMirrorStages (init_weights : Initializer) (reg : Regularizer) :
    List LayerSpec → List Layer
  | [] => []
  | s :: rest =>
      Layer.conv2dTranspose s.n_filters (3, 3) 2 "same" none true init_weights
        reg ::
      Layer.batchNormalization ::
      Layer.reluLayer Composable.relu ::
      specMirrorStages init_weights reg rest

/-- Whether a graph node is a downsampling convolution. -/
def isConvStage : Layer → Bool
  | Layer.conv2d _ _ _ _ _ _ _ _ => true
  | _ => false

/-- Whether a graph node is an upsampling transposed convolution. -/
def isTransposeStage : Layer → Bool
  | Layer.conv2dTranspose _ _ _ _ _ _ _ _ => true
  | _ => false

/-- Number of convolution stages in a graph. -/
def countConvStages (g : List Layer) : Nat := g.countP isConvStage

/-- Number of transposed-convolution stages in a graph. -/
def countTransposeStages (g : List Layer) : Nat := g.countP isTransposeStage

/-- The filter counts of the convolution nodes of a graph, in order. -/
def convFilters (g : List Layer) : List Int :=
  g.filterMap (fun l =>
    match l with
    | Layer.conv2d nf _ _ _ _ _ _ _ => some nf
    | _ => none)

/-! ## Helper lemmas -/

/-- Looking up a key in a dict from which that key was filtered out finds
nothing. -/
lemma lookup_filter_ne_self (a : String) (l : Kwargs) :
    List.lookup a (l.filter (fun p => p.1 != a)) = none := by
  induction l with
  | nil => rfl
  | cons hd tl ih =>
      by_cases h : hd.1 = a
      · simp [List.filter_cons, h, ih]
      · simp only [List.filter_cons]
        have hb : (hd.1 != a) = true := by simp [bne_iff_ne, h]
        rw [hb]
        simp only [if_true]
        have hba : (a == hd.1) = false := by
          simp [beq_iff_eq]
          exact fun he => h he.symm
        simp [List.lookup, hba, ih]

/-- Filtering a dict cannot make an absent key present. -/
lemma lookup_filter_of_none (a : String) (p : String × PyVal → Bool)
    (l : Kwargs) (h : List.lookup a l = none) :
    List.lookup a (l.filter p) = none := by
  induction l with
  | nil => rfl
  | cons hd tl ih =>
      have hcons : (a == hd.1) = false ∧ List.lookup a tl = none := by
        by_cases hb : (a == hd.1) = true
        · exfalso
          simp [List.lookup, hb] at h
        · exact ⟨by simp at hb; simp [hb], by simpa [List.lookup, hb] using h⟩
      rcases hcons with ⟨hb, htl⟩
      simp only [List.filter_cons]
      by_cases hp : p hd = true
      · rw [hp]
        simp [List.lookup, hb, ih htl]
      · simp at hp
        rw [hp]
        simp [ih htl]

/-- The length of the stage list built by the encoder loop. -/
lemma encoderStages_length (iw : Initializer) (rg : Regularizer)
    (L : List LayerSpec) :
    (AutoEncoder.encoderStages iw rg L).length = 3 * L.length := by
  induction L with
  | nil => rfl
  | cons s rest ih =>
      simp [AutoEncoder.encoderStages, ih, Nat.mul_succ]

/-- The length of the stage list built by the decoder loop. -/
lemma decoderLoop_length (iw : Initializer) (rg : Regularizer)
    (L : List LayerSpec) (idxs : List Nat) :
    (AutoEncoder.decoderLoop iw rg L idxs).length = 3 * idxs.length := by
  induction idxs with
  | nil => rfl
  | cons i rest ih =>
      simp [AutoEncoder.decoderLoop, ih, Nat.mul_succ]

/-- `range(k, 0, -1)` yields `k` indices. -/
lemma rangeDownTo1_length (k : Nat) : (rangeDownTo1 k).length = k := by
  induction k with
  | zero => rfl
  | succ k ih => simp [rangeDownTo1, ih]

/-- Every index yielded by `range(k, 0, -1)` lies in `[1, k]`. -/
lemma mem_rangeDownTo1 {i k : Nat} (h : i ∈ rangeDownTo1 k) :
    1 ≤ i ∧ i ≤ k := by
  induction k with
  | zero => cases h
  | succ k ih =>
      rcases List.mem_cons.mp h with h1 | h2
      · subst h1
        exact ⟨Nat.succ_le_succ (Nat.zero_le k), Nat.le_refl _⟩
      · rcases ih h2 with ⟨a, b⟩
        exact ⟨a, Nat.le_succ_of_le b⟩

/-- Reading a list at positions `len, len-1, ..., 1`, each shifted down by
one, yields the list back to front. -/
lemma rangeDownTo1_map_getD_shift {α : Type} (t : List α) (d : α) :
    (rangeDownTo1 t.length).map (fun i => t.getD (i - 1) d) = t.reverse := by
  induction t using List.reverseRecOn with
  | nil => rfl
  | append_singleton s a ih =>
      rw [List.length_append, List.length_singleton, rangeDownTo1, List.map_cons]
      have hhead : (s ++ [a]).getD (s.length + 1 - 1) d = a := by
        rw [Nat.add_sub_cancel, List.getD_append_right s [a] d s.length (Nat.le_refl _)]
        simp
      have htail : (rangeDownTo1 s.length).map (fun i => (s ++ [a]).getD (i - 1) d) =
          (rangeDownTo1 s.length).map (fun i => s.getD (i - 1) d) := by
        refine List.map_congr_left ?_
        intro i hi
        rcases mem_rangeDownTo1 hi with ⟨h1, h2⟩
        exact List.getD_append s [a] d (i - 1) (by omega)
      rw [hhead, htail, ih, List.reverse_append]
      simp

/-- Reading a nonempty list `a :: t` at the decoder-loop indices
`len(t), ..., 1` yields the tail back to front. -/
lemma rangeDownTo1_map_getD_cons {α : Type} (a : α) (t : List α) (d : α) :
    (rangeDownTo1 t.length).map (fun i => (a :: t).getD i d) = t.reverse := by
  have hcongr : (rangeDownTo1 t.length).map (fun i => (a :: t).getD i d) =
      (rangeDownTo1 t.length).map (fun i => t.getD (i - 1) d) := by
    refine List.map_congr_left ?_
    intro i hi
    rcases mem_rangeDownTo1 hi with ⟨h1, _⟩
    obtain ⟨j, rfl⟩ : ∃ j, i = j + 1 := ⟨i - 1, by omega⟩
    simp [List.getD_cons_succ]
  rw [hcongr, rangeDownTo1_map_getD_shift]

/-- The decoder loop over any index list equals the mirrored-stage builder
applied to the specs those indices select. -/
lemma decoderLoop_eq_spec (iw : Initializer) (rg : Regularizer)
    (layers : List LayerSpec) (idxs : List Nat) :
    AutoEncoder.decoderLoop iw rg layers idxs =
      specMirrorStages iw rg (idxs.map (fun i => layers.getD i ⟨0⟩)) := by
  induction idxs with
  | nil => rfl
  | cons i rest ih => simp [AutoEncoder.decoderLoop, specMirrorStages, ih]

/-- The decoder's index loop `range(len(layers)-1, 0, -1)` builds exactly the
mirrored stages of the reversed tail of `layers`. -/
lemma decoderLoop_mirror (iw : Initializer) (rg : Regularizer)
    (layers : List LayerSpec) :
    AutoEncoder.decoderLoop iw rg layers (rangeDownTo1 (layers.length - 1)) =
      specMirrorStages iw rg ((layers.drop 1).reverse) := by
  rw [decoderLoop_eq_spec]
  congr 1
  cases layers with
  | nil => rfl
  | cons a t =>
      simp only [List.length_cons, Nat.add_sub_cancel, List.drop_succ_cons,
        List.drop_zero]
      exact rangeDownTo1_map_getD_cons a t ⟨0⟩

/-! ## Claim theorems (first batch) -/

/-- C7: in `AutoEncoder.encoder` and `AutoEncoder.decoder` the keyword
`init_weights` binds the declared parameter, so it never appears in the
`metaparameters` dict; the fallback branch therefore always runs and the
initializer applied to every constructed layer is the class-level default
`AutoEncoder.init_weights` (= `'he_normal'`), whatever the caller passed. -/
theorem claim_C7_initializer_ignored :
    ∀ (kwargs : Kwargs) (x : List Layer),
      List.lookup "init_weights" (staticCallMeta kwargs) = none ∧
      AutoEncoder.metaResolvedInit (staticCallMeta kwargs) =
        AutoEncoder.init_weights ∧
      AutoEncoder.init_weights = some "he_normal" ∧
      AutoEncoder.encoder x kwargs =
        x ++ AutoEncoder.encoderStages AutoEncoder.init_weights
          (AutoEncoder.metaResolvedReg (staticCallMeta kwargs))
          (AutoEncoder.layersArg (staticCallMeta kwargs)) ∧
      AutoEncoder.decoder x kwargs =
        x ++ AutoEncoder.decoderStages AutoEncoder.init_weights
          (AutoEncoder.metaResolvedReg (staticCallMeta kwargs))
          (AutoEncoder.layersArg (staticCallMeta kwargs)) := by
  intro kwargs x
  have hnone : List.lookup "init_weights" (staticCallMeta kwargs) = none :=
    lookup_filter_ne_self "init_weights" kwargs
  have hres : AutoEncoder.metaResolvedInit (staticCallMeta kwargs) =
      AutoEncoder.init_weights := by
    simp [AutoEncoder.metaResolvedInit, hnone]
  refine ⟨hnone, hres, rfl, ?_, ?_⟩
  · simp [AutoEncoder.encoder, hres]
  · simp [AutoEncoder.decoder, hres]

/-- C8: recompiling replaces the training configuration — two `compile`
calls leave exactly the configuration of the most recent call (mse loss,
that call's optimizer, accuracy metric). -/
theorem claim_C8_compile_replaces :
    ∀ (ae : AEState) (o1 o2 : String),
      AutoEncoder.compile (AutoEncoder.compile ae o1) o2 =
        AutoEncoder.compile ae o2 ∧
      (AutoEncoder.compile (AutoEncoder.compile ae o1) o2).model.trainingConfig =
        some { loss := "mse", optimizer := o2, metrics := ["accuracy"] } := by
  intro ae o1 o2
  exact ⟨rfl, rfl⟩

/-- C10: `extract` returns a new encoder model and leaves the original
instance — its layer graph, weight sequence, and training configuration —
unchanged. -/
theorem claim_C10_extract_no_mutation :
    ∀ ae : AEState,
      (AutoEncoder.extractM ae).1 = ae ∧
      (AutoEncoder.extractM ae).1.model.graph = ae.model.graph ∧
      (AutoEncoder.extractM ae).1.model.weights = ae.model.weights ∧
      (AutoEncoder.extractM ae).1.model.trainingConfig =
        ae.model.trainingConfig ∧
      (AutoEncoder.extractM ae).2 = AutoEncoder.extract ae := by
  intro ae
  unfold AutoEncoder.extractM
  cases h : AutoEncoder.extract ae <;> simp [h]

/-- C1 (counterexample): with an instance constructed with the per-instance
initializer `'glorot_uniform'` and a call supplying no override, the
resolution used by the static layer helpers yields the class default
`'he_normal'`, not the per-instance setting — so call-site → instance →
class precedence does not hold as claimed. -/
theorem claim_C1_counterexample :
    ComposableState.init_weights_attr
        (Composable.constr (some "glorot_uniform") none none) =
      some "glorot_uniform" ∧
    Composable.hyperResolvedInit none = some "he_normal" ∧
    Composable.hyperResolvedInit none ≠
      ComposableState.init_weights_attr
        (Composable.constr (some "glorot_uniform") none none) := by
  refine ⟨rfl, rfl, ?_⟩
  decide

/-- C1 (amended): in `Composable.Dense`/`Conv2D`/`Conv2DTranspose` and in
`AutoEncoder.encoder`/`decoder`, a call-site `reg` override takes effect and
otherwise the class-level default applies; the per-instance setting is never
consulted, and in `encoder`/`decoder` the `init_weights` resolution always
yields the class default. -/
theorem claim_C1_amended :
    (∀ v : Initializer, Composable.hyperResolvedInit (some v) = v) ∧
    Composable.hyperResolvedInit none = Composable.init_weights ∧
    (∀ v : Regularizer, Composable.hyperResolvedReg (some v) = v) ∧
    Composable.hyperResolvedReg none = Composable.reg ∧
    (∀ (v : Regularizer) (rest : Kwargs),
        AutoEncoder.metaResolvedReg
          (staticCallMeta (("reg", PyVal.vReg v) :: rest)) = v) ∧
    (∀ kwargs : Kwargs, List.lookup "reg" kwargs = none →
        AutoEncoder.metaResolvedReg (staticCallMeta kwargs) = AutoEncoder.reg) ∧
    (∀ kwargs : Kwargs,
        AutoEncoder.metaResolvedInit (staticCallMeta kwargs) =
          AutoEncoder.init_weights) := by
  refine ⟨fun v => rfl, rfl, fun v => rfl, rfl, fun v rest => rfl, ?_, ?_⟩
  · intro kwargs h
    have hn := lookup_filter_of_none "reg" (fun p => p.1 != "init_weights") kwargs h
    unfold AutoEncoder.metaResolvedReg staticCallMeta
    rw [hn]
  · intro kwargs
    have hn := lookup_filter_ne_self "init_weights" kwargs
    unfold AutoEncoder.metaResolvedInit staticCallMeta
    rw [hn]

/-- C1 (witness): a concrete call with no `reg` keyword resolves to the
class default, and a concrete call-site override takes effect. -/
theorem claim_C1_witness :
    AutoEncoder.metaResolvedReg (staticCallMeta ([] : Kwargs)) =
      AutoEncoder.reg ∧
    Composable.hyperResolvedInit (some (some "zeros")) = some "zeros" :=
  ⟨claim_C1_amended.2.2.2.2.2.1 [] rfl, claim_C1_amended.1 (some "zeros")⟩

/-- C2 (counterexample): constructing with an empty `layerSpecs` does not
raise `InvalidConfigurationError` — it succeeds and builds a model whose
graph is just the decoder's fixed finishing stage. -/
theorem claim_C2_counterexample :
    AutoEncoder.construct (some []) (32, 32, 3) (some "he_normal") none =
      Except.ok
        (AutoEncoder.constructState (some []) (32, 32, 3) (some "he_normal")
          none) ∧
    (AutoEncoder.constructState (some []) (32, 32, 3) (some "he_normal")
        none).model.graph =
      [Layer.conv2dTranspose 3 (3, 3) 2 "same" none true (some "he_normal")
        (some (Reg.l2 (1 / 1000))),
       Layer.batchNormalization, Layer.reluLayer none] ∧
    AutoEncoder.construct (some []) (32, 32, 3) (some "he_normal") none ≠
      Except.error AEError.invalidConfiguration := by
  refine ⟨rfl, rfl, ?_⟩
  intro h
  exact Except.noConfusion h

/-- C2 (amended): the constructor performs no validation of `layerSpecs`:
for every argument — the empty list and non-positive filter counts
included — it returns a built model, whose graph has the encoder's `3·N`
nodes followed by the decoder's `3·(N−1) + 3` nodes. -/
theorem claim_C2_amended :
    ∀ (layersArg0 : Option (List LayerSpec)) (shape : Nat × Nat × Nat)
      (iw : Initializer) (rg : Regularizer),
      AutoEncoder.construct layersArg0 shape iw rg =
        Except.ok (AutoEncoder.constructState layersArg0 shape iw rg) ∧
      (AutoEncoder.constructState layersArg0 shape iw rg).model.graph.length =
        3 * (layersArg0.getD AutoEncoder.layers).length +
          (3 * ((layersArg0.getD AutoEncoder.layers).length - 1) + 3) := by
  intro l0 shape iw rg
  refine ⟨rfl, ?_⟩
  have hgraph : (AutoEncoder.constructState l0 shape iw rg).model.graph =
      AutoEncoder.encoderStages AutoEncoder.init_weights AutoEncoder.reg
          (l0.getD AutoEncoder.layers) ++
        AutoEncoder.decoderStages AutoEncoder.init_weights AutoEncoder.reg
          (l0.getD AutoEncoder.layers) := rfl
  rw [hgraph, List.length_append, AutoEncoder.decoderStages,
    List.length_append, encoderStages_length, decoderLoop_length,
    rangeDownTo1_length]
  simp

/-! ## Weight-count and stage-count lemmas -/

/-- Unfolding `totalWeightCount` one node at a time. -/
lemma totalWeightCount_cons (l : Layer) (g : List Layer) :
    totalWeightCount (l :: g) = layerWeightCount l + totalWeightCount g := rfl

/-- `totalWeightCount` adds over graph concatenation. -/
lemma totalWeightCount_append (g h : List Layer) :
    totalWeightCount (g ++ h) = totalWeightCount g + totalWeightCount h := by
  induction g with
  | nil => simp [totalWeightCount]
  | cons l t ih =>
      rw [List.cons_append, totalWeightCount_cons, totalWeightCount_cons, ih]
      omega

/-- Each encoder stage contributes exactly 6 weight arrays (2 for the
convolution, 4 for batch normalization, 0 for the activation). -/
lemma encoderStages_weightCount (iw : Initializer) (rg : Regularizer)
    (L : List LayerSpec) :
    totalWeightCount (AutoEncoder.encoderStages iw rg L) = 6 * L.length := by
  induction L with
  | nil => rfl
  | cons s rest ih =>
      simp only [AutoEncoder.encoderStages, totalWeightCount_cons, ih,
        layerWeightCount, if_true, List.length_cons]
      omega

/-- The fresh encoder graph built inside `extract` is exactly the encoder
stage list over `self.layers` at the class defaults. -/
lemma extractEncoderGraph_eq (ae : AEState) :
    AutoEncoder.extractEncoderGraph ae =
      AutoEncoder.encoderStages AutoEncoder.init_weights AutoEncoder.reg
        ae.layers := rfl

/-- Counting transposed convolutions in the mirrored stage list. -/
lemma countTranspose_specMirror (iw : Initializer) (rg : Regularizer)
    (L : List LayerSpec) :
    countTransposeStages (specMirrorStages iw rg L) = L.length := by
  induction L with
  | nil => rfl
  | cons s rest ih =>
      simp [specMirrorStages, countTransposeStages, List.countP_cons,
        isTransposeStage] at ih ⊢
      exact ih

/-- `countP` distributes over concatenation (specialized to stages). -/
lemma countTranspose_append (g h : List Layer) :
    countTransposeStages (g ++ h) =
      countTransposeStages g + countTransposeStages h := by
  simp [countTransposeStages, List.countP_append]

/-- Dropping one full stage (three nodes) shifts positional reads by 3. -/
lemma getD_cons3 (a b c : Layer) (l : List Layer) (n : Nat) (d : Layer) :
    (a :: b :: c :: l).getD (n + 3) d = l.getD n d := rfl

/-- Positional structure of the encoder stage list: node `3j` is the
convolution of spec `j`, node `3j+1` its normalization, node `3j+2` its
activation. -/
lemma encoderStages_getD (iw : Initializer) (rg : Regularizer) :
    ∀ (layers : List LayerSpec) (j : Nat), j < layers.length →
      (AutoEncoder.encoderStages iw rg layers).getD (3 * j)
          Layer.batchNormalization =
        Layer.conv2d (layers.getD j ⟨0⟩).n_filters (3, 3) 2 "same" none true
          iw rg ∧
      (AutoEncoder.encoderStages iw rg layers).getD (3 * j + 1)
          (Layer.reluLayer (some 1)) = Layer.batchNormalization ∧
      (AutoEncoder.encoderStages iw rg layers).getD (3 * j + 2)
          Layer.batchNormalization = Layer.reluLayer Composable.relu := by
  intro layers
  induction layers with
  | nil => intro j hj; exact absurd hj (Nat.not_lt_zero j)
  | cons s rest ih =>
      intro j hj
      cases j with
      | zero => exact ⟨rfl, rfl, rfl⟩
      | succ j =>
          have hj' : j < rest.length := Nat.lt_of_succ_lt_succ hj
          have h0 : 3 * (j + 1) = 3 * j + 3 := by ring
          have h1 : 3 * (j + 1) + 1 = 3 * j + 1 + 3 := by ring
          have h2 : 3 * (j + 1) + 2 = 3 * j + 2 + 3 := by ring
          rcases ih j hj' with ⟨ia, ib, ic⟩
          refine ⟨?_, ?_, ?_⟩
          · rw [h0]
            simp only [AutoEncoder.encoderStages]
            rw [getD_cons3]
            exact ia
          · rw [h1]
            simp only [AutoEncoder.encoderStages]
            rw [getD_cons3]
            exact ib
          · rw [h2]
            simp only [AutoEncoder.encoderStages]
            rw [getD_cons3]
            exact ic

/-- The filter counts of the encoder stage list, in order. -/
lemma convFilters_encoderStages (iw : Initializer) (rg : Regularizer)
    (layers : List LayerSpec) :
    convFilters (AutoEncoder.encoderStages iw rg layers) =
      layers.map LayerSpec.n_filters := by
  induction layers with
  | nil => rfl
  | cons s rest ih =>
      simp [AutoEncoder.encoderStages, convFilters, List.filterMap_cons] at ih ⊢
      exact ih

/-- Each encoder stage contributes exactly one convolution node. -/
lemma countConv_encoderStages (iw : Initializer) (rg : Regularizer)
    (layers : List LayerSpec) :
    countConvStages (AutoEncoder.encoderStages iw rg layers) =
      layers.length := by
  induction layers with
  | nil => rfl
  | cons s rest ih =>
      simp [AutoEncoder.encoderStages, countConvStages, List.countP_cons,
        isConvStage] at ih ⊢
      exact ih

/-- The encoder builds no transposed convolutions. -/
lemma countTranspose_encoderStages (iw : Initializer) (rg : Regularizer)
    (layers : List LayerSpec) :
    countTransposeStages (AutoEncoder.encoderStages iw rg layers) = 0 := by
  induction layers with
  | nil => rfl
  | cons s rest ih =>
      simp [AutoEncoder.encoderStages, countTransposeStages, List.countP_cons,
        isTransposeStage] at ih ⊢
      exact ih

/-- When the stored weight sequence is long enough, `extract` succeeds and
returns the fresh encoder model loaded with the sliced weights. -/
lemma extract_ok_of_enough (ae : AEState)
    (h : 6 * ae.layers.length ≤ ae.model.weights.length) :
    AutoEncoder.extract ae =
      Except.ok
        { graph := AutoEncoder.extractEncoderGraph ae,
          weights := (Model.get_weights ae.model).take (6 * ae.layers.length),
          trainingConfig := none } := by
  have hlen : ((Model.get_weights ae.model).take (6 * ae.layers.length)).length =
      6 * ae.layers.length := by
    rw [Model.get_weights, List.length_take]
    omega
  have hexp : totalWeightCount
      (Model.mkNew (AutoEncoder.extractEncoderGraph ae)).graph =
      6 * ae.layers.length := by
    show totalWeightCount (AutoEncoder.extractEncoderGraph ae) = _
    rw [extractEncoderGraph_eq]
    exact encoderStages_weightCount _ _ _
  show Model.set_weights (Model.mkNew (AutoEncoder.extractEncoderGraph ae))
      ((Model.get_weights ae.model).take (6 * ae.layers.length)) = _
  unfold Model.set_weights
  rw [hlen, hexp, if_pos rfl]
  rfl

/-! ## Claim theorems (second batch) -/

/-- C3: for `N ≥ 1` specs the decoder builds its mirrored stages from the
loop over indices `len(layerSpecs)-1 .. 1` (descending, excluding index 0) —
one stride-2 3×3 same-padding transposed convolution with that index's
filter count, normalization, clamped ReLU per index, i.e. exactly the
mirrored stages of the reversed tail — then appends the single fixed
3-channel finishing stage, for `N` transposed-convolution stages total. -/
theorem claim_C3_decoder_stages (iw : Initializer) (rg : Regularizer)
    (layers : List LayerSpec) (h : 1 ≤ layers.length) :
    AutoEncoder.decoderStages iw rg layers =
      specMirrorStages iw rg ((layers.drop 1).reverse) ++
        [Layer.conv2dTranspose 3 (3, 3) 2 "same" none true iw rg,
         Layer.batchNormalization, Layer.reluLayer Composable.relu] ∧
    countTransposeStages (AutoEncoder.decoderStages iw rg layers) =
      layers.length := by
  constructor
  · rw [AutoEncoder.decoderStages, decoderLoop_mirror]
  · rw [AutoEncoder.decoderStages, countTranspose_append, decoderLoop_mirror,
      countTranspose_specMirror, List.length_reverse, List.length_drop]
    have hfix : countTransposeStages
        [Layer.conv2dTranspose 3 (3, 3) 2 "same" none true iw rg,
         Layer.batchNormalization, Layer.reluLayer Composable.relu] = 1 := rfl
    rw [hfix]
    omega

/-- C3 (witness): the default three-stage configuration. -/
theorem claim_C3_witness :
    AutoEncoder.decoderStages (some "he_normal") none
        [⟨64⟩, ⟨32⟩, ⟨16⟩] =
      specMirrorStages (some "he_normal") none
          ((([⟨64⟩, ⟨32⟩, ⟨16⟩] : List LayerSpec).drop 1).reverse) ++
        [Layer.conv2dTranspose 3 (3, 3) 2 "same" none true (some "he_normal")
          none,
         Layer.batchNormalization, Layer.reluLayer Composable.relu] ∧
    countTransposeStages
        (AutoEncoder.decoderStages (some "he_normal") none
          [⟨64⟩, ⟨32⟩, ⟨16⟩]) =
      ([⟨64⟩, ⟨32⟩, ⟨16⟩] : List LayerSpec).length :=
  claim_C3_decoder_stages (some "he_normal") none [⟨64⟩, ⟨32⟩, ⟨16⟩]
    (by decide)

/-- C5: the encoder appends, for each spec in order, exactly one stage of
{stride-2 3×3 same-padding convolution with that spec's filter count →
normalization → clamped ReLU}: the stage list has length `3N`, carries the
specs' filter counts in order, holds `N` convolutions and no transposed
convolution, and its nodes at positions `3j`, `3j+1`, `3j+2` are that
stage's convolution, normalization and activation. -/
theorem claim_C5_encoder_stages (iw : Initializer) (rg : Regularizer)
    (layers : List LayerSpec) (j : Nat) (h : j < layers.length) :
    (AutoEncoder.encoderStages iw rg layers).length = 3 * layers.length ∧
    convFilters (AutoEncoder.encoderStages iw rg layers) =
      layers.map LayerSpec.n_filters ∧
    countConvStages (AutoEncoder.encoderStages iw rg layers) =
      layers.length ∧
    countTransposeStages (AutoEncoder.encoderStages iw rg layers) = 0 ∧
    (AutoEncoder.encoderStages iw rg layers).getD (3 * j)
        Layer.batchNormalization =
      Layer.conv2d (layers.getD j ⟨0⟩).n_filters (3, 3) 2 "same" none true
        iw rg ∧
    (AutoEncoder.encoderStages iw rg layers).getD (3 * j + 1)
        (Layer.reluLayer (some 1)) = Layer.batchNormalization ∧
    (AutoEncoder.encoderStages iw rg layers).getD (3 * j + 2)
        Layer.batchNormalization = Layer.reluLayer Composable.relu := by
  rcases encoderStages_getD iw rg layers j h with ⟨ia, ib, ic⟩
  exact ⟨encoderStages_length iw rg layers,
    convFilters_encoderStages iw rg layers,
    countConv_encoderStages iw rg layers,
    countTranspose_encoderStages iw rg layers, ia, ib, ic⟩

/-- C5 (witness): the default configuration at stage index 1. -/
theorem claim_C5_witness :
    (AutoEncoder.encoderStages (some "he_normal") none
        [⟨64⟩, ⟨32⟩, ⟨16⟩]).length =
      3 * ([⟨64⟩, ⟨32⟩, ⟨16⟩] : List LayerSpec).length ∧
    convFilters (AutoEncoder.encoderStages (some "he_normal") none
        [⟨64⟩, ⟨32⟩, ⟨16⟩]) =
      ([⟨64⟩, ⟨32⟩, ⟨16⟩] : List LayerSpec).map LayerSpec.n_filters ∧
    countConvStages (AutoEncoder.encoderStages (some "he_normal") none
        [⟨64⟩, ⟨32⟩, ⟨16⟩]) =
      ([⟨64⟩, ⟨32⟩, ⟨16⟩] : List LayerSpec).length ∧
    countTransposeStages (AutoEncoder.encoderStages (some "he_normal") none
        [⟨64⟩, ⟨32⟩, ⟨16⟩]) = 0 ∧
    (AutoEncoder.encoderStages (some "he_normal") none
        [⟨64⟩, ⟨32⟩, ⟨16⟩]).getD (3 * 1) Layer.batchNormalization =
      Layer.conv2d (([⟨64⟩, ⟨32⟩, ⟨16⟩] : List LayerSpec).getD 1 ⟨0⟩).n_filters
        (3, 3) 2 "same" none true (some "he_normal") none ∧
    (AutoEncoder.encoderStages (some "he_normal") none
        [⟨64⟩, ⟨32⟩, ⟨16⟩]).getD (3 * 1 + 1) (Layer.reluLayer (some 1)) =
      Layer.batchNormalization ∧
    (AutoEncoder.encoderStages (some "he_normal") none
        [⟨64⟩, ⟨32⟩, ⟨16⟩]).getD (3 * 1 + 2) Layer.batchNormalization =
      Layer.reluLayer Composable.relu :=
  claim_C5_encoder_stages (some "he_normal") none [⟨64⟩, ⟨32⟩, ⟨16⟩] 1
    (by decide)

/-- C4: for every AutoEncoder built from a `layerSpecs` sequence, `extract`
succeeds and loads into the new encoder exactly the first `6 × N` weight
arrays of the full model's weight sequence, in order — in particular the
extracted weight list has length `6 × N`. -/
theorem claim_C4_extract_weight_count :
    ∀ (layersArg0 : List LayerSpec) (shape : Nat × Nat × Nat)
      (iw : Initializer) (rg : Regularizer),
      ∃ enc : Model,
        AutoEncoder.extract
            (AutoEncoder.constructState (some layersArg0) shape iw rg) =
          Except.ok enc ∧
        enc.weights =
          (Model.get_weights
              (AutoEncoder.constructState (some layersArg0) shape iw
                rg).model).take (6 * layersArg0.length) ∧
        enc.weights.length = 6 * layersArg0.length := by
  intro L shape iw rg
  have hl : (AutoEncoder.constructState (some L) shape iw rg).layers = L := rfl
  have hgraph : (AutoEncoder.constructState (some L) shape iw rg).model.graph =
      AutoEncoder.encoderStages AutoEncoder.init_weights AutoEncoder.reg L ++
        AutoEncoder.decoderStages AutoEncoder.init_weights AutoEncoder.reg
          L := rfl
  have hw : (AutoEncoder.constructState (some L) shape iw rg).model.weights.length
      = totalWeightCount
          ((AutoEncoder.constructState (some L) shape iw rg).model.graph) := by
    show (List.range (totalWeightCount _)).length = _
    rw [List.length_range]
    rfl
  have h6 : 6 * (AutoEncoder.constructState (some L) shape iw rg).layers.length ≤
      (AutoEncoder.constructState (some L) shape iw rg).model.weights.length := by
    rw [hl, hw, hgraph, totalWeightCount_append, encoderStages_weightCount]
    omega
  refine ⟨_, extract_ok_of_enough _ h6, rfl, ?_⟩
  have h6' : 6 * L.length ≤
      (AutoEncoder.constructState (some L) shape iw rg).model.weights.length := by
    rw [hw, hgraph, totalWeightCount_append, encoderStages_weightCount]
    omega
  show ((Model.get_weights
      (AutoEncoder.constructState (some L) shape iw rg).model).take
        (6 * L.length)).length = 6 * L.length
  rw [Model.get_weights, List.length_take]
  omega

/-- C6: whenever the sliced weight list does not match the parameter count
expected by the freshly built encoder graph, `extract` fails with the
shape-mismatch error. -/
theorem claim_C6_shape_mismatch :
    ∀ ae : AEState,
      ((Model.get_weights ae.model).take (6 * ae.layers.length)).length ≠
        totalWeightCount (AutoEncoder.extractEncoderGraph ae) →
      AutoEncoder.extract ae = Except.error AEError.shapeMismatch := by
  intro ae h
  show Model.set_weights (Model.mkNew (AutoEncoder.extractEncoderGraph ae))
      ((Model.get_weights ae.model).take (6 * ae.layers.length)) =
    Except.error AEError.shapeMismatch
  unfold Model.set_weights
  have h' : (List.take (6 * ae.layers.length) (Model.get_weights ae.model)).length ≠
      totalWeightCount
        (Model.mkNew (AutoEncoder.extractEncoderGraph ae)).graph := h
  rw [if_neg h']

/-- An instance whose model holds no weights at all: the slice is empty
while the fresh encoder expects 6 arrays. -/
def aeMismatch : AEState :=
  { layers := [⟨8⟩], input_shape := (1, 1, 3),
    base := Composable.constr none none none,
    model := { graph := [], weights := [], trainingConfig := none } }

/-- C6 (witness): extracting from `aeMismatch` raises the shape-mismatch
error. -/
theorem claim_C6_witness :
    AutoEncoder.extract aeMismatch = Except.error AEError.shapeMismatch :=
  claim_C6_shape_mismatch aeMismatch (by decide)

/-- C9: the activation helper is the rectifier clamped at the configured
maximum when a clamp value is set, and the standard unbounded ReLU
(identity on non-negative inputs, zero on negative inputs, no upper bound)
when unset; the graph helper `Composable.ReLU` appends the activation node
configured with `Composable.relu`, which defaults to unset. -/
theorem claim_C9_relu :
    (∀ m x : ℚ, 0 ≤ m →
        (x < 0 → reluEval (some m) x = 0) ∧
        (0 ≤ x → x ≤ m → reluEval (some m) x = x) ∧
        (m ≤ x → reluEval (some m) x = m)) ∧
    (∀ x : ℚ, 0 ≤ x → reluEval none x = x) ∧
    (∀ x : ℚ, x < 0 → reluEval none x = 0) ∧
    (∀ B : ℚ, ∃ x : ℚ, B < reluEval none x) ∧
    (∀ g : List Layer,
        Composable.ReLU g = g ++ [Layer.reluLayer Composable.relu]) ∧
    Composable.relu = none := by
  refine ⟨?_, ?_, ?_, ?_, fun g => rfl, rfl⟩
  · intro m x hm
    refine ⟨?_, ?_, ?_⟩
    · intro hx
      show min (max x 0) m = 0
      rw [max_eq_right hx.le, min_eq_left hm]
    · intro hx hxm
      show min (max x 0) m = x
      rw [max_eq_left hx, min_eq_left hxm]
    · intro hmx
      show min (max x 0) m = m
      exact min_eq_right (le_trans hmx (le_max_left x 0))
  · intro x hx
    show max x 0 = x
    exact max_eq_left hx
  · intro x hx
    show max x 0 = 0
    exact max_eq_right hx.le
  · intro B
    refine ⟨max B 0 + 1, ?_⟩
    show B < max (max B 0 + 1) 0
    have h1 : B < max B 0 + 1 := (le_max_left B 0).trans_lt (lt_add_one _)
    exact h1.trans_le (le_max_left _ _)

/-- C9 (witness): a clamp of 6 caps the input 10 at 6, and without a clamp
a negative input maps to 0. -/
theorem claim_C9_witness :
    reluEval (some 6) 10 = 6 ∧ reluEval none (-2) = 0 :=
  ⟨(claim_C9_relu.1 6 10 (by decide)).2.2 (by decide),
   claim_C9_relu.2.2.1 (-2) (by decide)⟩
